import Mathlib

/-!
Shallow embedding of the halite-match-manager core (src/manager/core.py,
src/manager/cli.py) in Lean 4, together with theorems settling the frozen
claims about the match orchestration and rating-ledger subsystem.

Modelling conventions:
* Python floats (trueskill mu/sigma) are modelled as rationals.
* Python dicts are modelled as insertion-ordered association lists with the
  same update semantics (assignment to an existing key replaces the value in
  place; assignment to a fresh key appends).
* `random.shuffle` is modelled by explicit shuffle-function parameters; where
  a theorem needs it, the hypothesis states that the function permutes (or
  preserves the length of) its input, which is what a shuffle does.
* Raising an exception is modelled by `Except` / by returning the mutated
  object state paired with `Option PyErr` when the mutation happens before
  the raise (Python exceptions do not roll back object mutation).
* The trueskill `rate` function is external to the repository and is taken
  as an opaque function parameter.
* serde `Model` defines no custom attribute fallback, so reading an attribute
  that was never assigned (such as `_path` on a freshly constructed
  `Manager`) raises `AttributeError`, per standard Python semantics.
-/

namespace HaliteManager

/-- Python exception kinds raised by the embedded code paths. -/
inductive PyErr where
  | keyError
  | indexError
  | valueError
  | attributeError
  | osError
  | validationError
deriving DecidableEq, Repr

/-- Python `trueskill.Rating`: a Gaussian skill estimate (floats modelled as `ℚ`). -/
structure Rating where
  mu : ℚ
  sigma : ℚ
deriving DecidableEq, Repr

/-- The serde field default `trueskill.Rating(mu=25.000, sigma=8.333)`. -/
def defaultRating : Rating :=
  { mu := 25, sigma := 8333/1000 }

/-- Python `Bot` model of core.py: name, command, rating, played, won.
`played`/`won` are Python ints with serde default 0 and no bounds. -/
structure Bot where
  name : String
  command : String
  rating : Rating
  played : Int
  won : Int
deriving DecidableEq, Repr

/-- Python `Map` model of core.py: width/height ints (validated to [32,64]),
optional seed, optional generator tag. -/
structure Map where
  width : Int
  height : Int
  seed : Option Int
  generator : Option String
deriving DecidableEq, Repr

/-- Python `Result` model of core.py: `scores : Dict(str, Dict(str, int))` and
`terminated : Dict(str, bool)`, keyed by contestant name. -/
structure Result where
  scores : List (String × List (String × Int))
  terminated : List (String × Bool)
deriving DecidableEq, Repr

/-- Python `Match` model of core.py: contestant names plus a map.  The Python field
`match` is a Lean keyword, so the `Game` field holding it is called
`matchup`. -/
structure Match where
  contestants : List String
  map : Map
deriving DecidableEq, Repr

/-- Python `Game` model of core.py: an immutable pairing of a `Match` and its
`Result`. -/
structure Game where
  matchup : Match
  result : Result
deriving DecidableEq, Repr

/-- Python `Manager` model of core.py: the bot registry (a Python dict, modelled as
an insertion-ordered association list) and the game history. -/
structure Manager where
  bots : List (String × Bot)
  games : List Game
deriving DecidableEq, Repr

/-- Python dict read `d[k]` (as an `Option`); `find?` returns the value for
the first matching key, which is the only one in an actual dict. -/
def lookupDict {α : Type} (l : List (String × α)) (k : String) : Option α :=
  (l.find? (fun p => decide (p.1 = k))).map (fun p => p.2)

/-- Python dict write `d[k] = v`: replace in place if the key exists
(keeping its position), otherwise append. -/
def dictInsert {α : Type} (l : List (String × α)) (k : String) (v : α) :
    List (String × α) :=
  if l.any (fun p => decide (p.1 = k)) then
    l.map (fun p => if p.1 = k then (k, v) else p)
  else
    l ++ [(k, v)]

/-- In-place mutation of the value stored at key `k` (used for
`self.bots[name].rating = ...` etc.; the key is known to exist on every
reachable path). -/
def updateDict {α : Type} (l : List (String × α)) (k : String) (f : α → α) :
    List (String × α) :=
  l.map (fun p => if p.1 = k then (p.1, f p.2) else p)

/-- The `Choice` options of the `Map.generator` field. -/
def generatorChoices : List String :=
  ["basic", "blur_tile", "fractal"]

/-- serde validation of a `Map`: `Int(min=32, max=64)` on width and height,
`Choice([...])` on the generator.  `seed` has no bounds. -/
def Map.validB (m : Map) : Bool :=
  decide (32 ≤ m.width) && decide (m.width ≤ 64) &&
  decide (32 ≤ m.height) && decide (m.height ≤ 64) &&
  (match m.generator with
   | none => true
   | some g => generatorChoices.contains g)

/-- serde validation of the whole `Manager` (`self.validate()`): the only
value-level constraints in the model are the `Map` bounds and choices,
checked recursively through every stored game.  `Bot` fields carry no value
constraints (`played`/`won` have no `min`). -/
def Manager.validB (m : Manager) : Bool :=
  m.games.all (fun g => g.matchup.map.validB)

/-- The `Manager()` constructed by serde defaults: empty registry, empty
history. -/
def Manager.empty : Manager :=
  { bots := [], games := [] }

/-- Python `Bot(name=..., command=..., rating=...)` as constructed by the cli `add`
command: `played`/`won` take their serde defaults 0, and a `None` rating
takes the default rating. -/
def mkBot (name command : String) (rating : Option Rating) : Bot :=
  { name := name, command := command, rating := rating.getD defaultRating,
    played := 0, won := 0 }

/-- Python `Bot.reset`: rating, played and won back to their field defaults. -/
def Bot.reset (b : Bot) : Bot :=
  { b with rating := defaultRating, played := 0, won := 0 }

/-- Python `Manager.add_bot`: raises `KeyError` (before mutating) if the name is
taken, otherwise inserts the bot and validates. -/
def Manager.add_bot (m : Manager) (bot : Bot) : Manager × Option PyErr :=
  if m.bots.any (fun p => decide (p.1 = bot.name)) then
    (m, some PyErr.keyError)
  else
    let m2 : Manager := { m with bots := m.bots ++ [(bot.name, bot)] }
    (m2, if m2.validB then none else some PyErr.validationError)

/-- The rank list of `Result.ranked()`: `score['rank']` for each entry of
`scores`, raising `KeyError` when an inner dict lacks the key. -/
def ranksOf (scores : List (String × List (String × Int))) :
    Except PyErr (List Int) :=
  scores.mapM (fun p =>
    match lookupDict p.2 "rank" with
    | some r => Except.ok r
    | none => Except.error PyErr.keyError)

/-- One iteration of the `add_game` update loop for one contestant:
`self.bots[name].rating = new_ratings[i][0]`, `played += 1`, and `won += 1`
when `ranks[i] == 1`. -/
def commitStep (rank : Int) (nr : Rating) (b : Bot) : Bot :=
  { b with
      rating := nr
      played := b.played + 1
      won := b.won + (if rank = 1 then 1 else 0) }

/-- The `for i, name in enumerate(names)` loop of `add_game`.  Exhausting
`new_ratings` first is Python's `IndexError` on `new_ratings[i]`; mutations
made before the raise are kept (Python does not roll back). -/
def commitLoop (bots : List (String × Bot)) :
    List String → List Int → List Rating → List (String × Bot) × Option PyErr
  | [], _, _ => (bots, none)
  | _ :: _, [], _ => (bots, some PyErr.indexError)
  | _ :: _, _ :: _, [] => (bots, some PyErr.indexError)
  | n :: ns, r :: rs, nr :: nrs =>
      commitLoop (updateDict bots n (commitStep r nr)) ns rs nrs

/-- Python `Manager.add_game`: read the (name, rank) pairs from the result, look up
every contestant's rating (KeyError if a name is unknown — raised before any
mutation), call the opaque trueskill `rate`, run the update loop, append the
game and validate.  `zip(*[])` on an empty score dict raises `ValueError`;
validation failure raises after the mutations, so the mutated state is
kept. -/
def Manager.add_game (rate : List Rating → List Int → List Rating)
    (m : Manager) (g : Game) : Manager × Option PyErr :=
  if g.result.scores.isEmpty then (m, some PyErr.valueError) else
  match ranksOf g.result.scores with
  | Except.error e => (m, some e)
  | Except.ok ranks =>
    let names := g.result.scores.map (fun p => p.1)
    match names.mapM (fun n =>
        match lookupDict m.bots n with
        | some b => Except.ok b.rating
        | none => Except.error PyErr.keyError) with
    | Except.error e => (m, some e)
    | Except.ok players =>
      let newRatings := rate players ranks
      let res := commitLoop m.bots names ranks newRatings
      match res.2 with
      | some e => ({ m with bots := res.1 }, some e)
      | none =>
        let m2 : Manager := { m with bots := res.1, games := m.games ++ [g] }
        (m2, if m2.validB then none else some PyErr.validationError)

/-- Python `Manager.reset`: clear the game history and reset every bot. -/
def Manager.reset (m : Manager) : Manager :=
  { m with
      games := []
      bots := m.bots.map (fun p => (p.1, p.2.reset)) }

/-- The cli `reset --name` path: look the bot up (KeyError if missing), keep
only the games all of whose contestants are absent from the registry, reset
that one bot. -/
def Manager.resetBot (m : Manager) (name : String) : Manager × Option PyErr :=
  match lookupDict m.bots name with
  | none => (m, some PyErr.keyError)
  | some _ =>
    let newGames := m.games.filter (fun g =>
      g.matchup.contestants.all (fun c =>
        !(m.bots.any (fun p => decide (p.1 = c)))))
    ({ bots := updateDict m.bots name Bot.reset, games := newGames }, none)

/-- The cli `rm --name` path: `del manager.bots[name]` (KeyError if
missing). -/
def Manager.rmBot (m : Manager) (name : String) : Manager × Option PyErr :=
  if m.bots.any (fun p => decide (p.1 = name)) then
    ({ m with bots := m.bots.filter (fun p => !(decide (p.1 = name))) }, none)
  else
    (m, some PyErr.keyError)

/-- The cli `rm` path without a name: `manager.reset()` then
`manager.bots = {}`. -/
def Manager.rmAll (m : Manager) : Manager :=
  { m.reset with bots := [] }

/-- The registry key view `self.bots.keys()` (dict keys in insertion
order). -/
def botNames (m : Manager) : List String :=
  m.bots.map (fun p => p.1)

/-- Python `Manager.generate_contestants`.  The two `random.shuffle` calls are the
explicit parameters `shuffle1` (pool shuffle) and `shuffle2` (final
shuffle); `count` is the already-resolved contestant count (the Python
default draws it from `{2, 4}` when the caller passes `None`).  Python's
`max(0, count - len(prioritize))` is Lean's truncated `Nat` subtraction. -/
def Manager.generate_contestants (m : Manager)
    (shuffle1 shuffle2 : List String → List String)
    (count : Nat) (prioritize : List String) : List String :=
  if prioritize.isEmpty then
    (shuffle1 (botNames m)).take count
  else
    let pool := shuffle1 ((botNames m).filter (fun n => decide (n ∉ prioritize)))
    let pool2 := shuffle2 (prioritize ++ pool.take (count - prioritize.length))
    pool2.take count

/-- A Ledger operation as issued by the cli: add a bot (always constructed
with default counters), commit a game, reset everything, reset one bot,
remove one bot, remove everything. -/
inductive Op where
  | addBot (name command : String) (rating : Option Rating)
  | addGame (g : Game)
  | resetAll
  | resetBot (name : String)
  | rmBot (name : String)
  | rmAll

/-- Apply one operation; the in-memory state after the call is the mutated
object state even when the call raised. -/
def applyOp (rate : List Rating → List Int → List Rating)
    (m : Manager) : Op → Manager
  | Op.addBot n c r => (m.add_bot (mkBot n c r)).1
  | Op.addGame g => (Manager.add_game rate m g).1
  | Op.resetAll => m.reset
  | Op.resetBot n => (m.resetBot n).1
  | Op.rmBot n => (m.rmBot n).1
  | Op.rmAll => m.rmAll

/-- Run a sequence of Ledger operations from the freshly constructed empty
Manager. -/
def runOps (rate : List Rating → List Int → List Rating)
    (ops : List Op) : Manager :=
  ops.foldl (applyOp rate) Manager.empty

/-- The data-model invariant of §3/§8 of the spec: every registered bot has
`won ≤ played`. -/
def WonLePlayed (m : Manager) : Prop :=
  ∀ p ∈ m.bots, p.2.won ≤ p.2.played

/-- Python list indexing `l[i]` on an int index: negative indices wrap once,
anything still out of range raises `IndexError`. -/
def pyIndex {α : Type} (l : List α) (i : Int) : Except PyErr α :=
  let j : Int := if i < 0 then i + l.length else i
  if 0 ≤ j then
    match l.get? j.toNat with
    | some a => Except.ok a
    | none => Except.error PyErr.indexError
  else
    Except.error PyErr.indexError

/-- The parsed JSON emitted by the halite engine, as consumed by
`Match.run`: a map seed, a map generator, and per-contestant-index `stats`
and `terminated` dicts (the JSON string keys are already parsed here, since
`Match.run` immediately applies `int(k)` to each). -/
structure EngineOutput where
  map_seed : Int
  map_generator : String
  stats : List (Int × List (String × Int))
  terminated : List (Int × Bool)
deriving DecidableEq, Repr

/-- The dict comprehension `{self.contestants[int(k)]: v for k, v in
d.items()}`, entry by entry. -/
def buildNamed {α : Type} (contestants : List String) :
    List (Int × α) → List (String × α) → Except PyErr (List (String × α))
  | [], acc => Except.ok acc
  | (k, v) :: rest, acc =>
    match pyIndex contestants k with
    | Except.error e => Except.error e
    | Except.ok n => buildNamed contestants rest (dictInsert acc n v)

/-- Python `Match.run` on a successfully parsed engine invocation (a non-zero exit
of the subprocess and malformed JSON raise before this logic runs): back-fill
the map seed and generator from the engine's output, then key the stats and
terminated dicts by contestant name through positional indexing.  There is no
count check of any kind. -/
def Match.run (mt : Match) (out : EngineOutput) : Except PyErr Game :=
  let map2 : Map :=
    { mt.map with seed := some out.map_seed, generator := some out.map_generator }
  let mt2 : Match := { mt with map := map2 }
  match buildNamed mt.contestants out.stats [],
        buildNamed mt.contestants out.terminated [] with
  | Except.ok scores, Except.ok term =>
    Except.ok { matchup := mt2, result := { scores := scores, terminated := term } }
  | Except.error e, _ => Except.error e
  | _, Except.error e => Except.error e

/-- The JSON documents handled by `Manager.to_json` / `Manager.from_json`,
as an abstract syntax tree (ints and floats are distinct JSON tokens). -/
inductive J where
  | s (v : String)
  | i (v : Int)
  | f (v : ℚ)
  | b (v : Bool)
  | arr (vs : List J)
  | obj (kvs : List (String × J))

/-- Field lookup in a JSON object. -/
def getField (kvs : List (String × J)) (k : String) : Option J :=
  lookupDict kvs k

/-- A required field: missing means the document does not deserialize. -/
def reqField (kvs : List (String × J)) (k : String) : Except PyErr J :=
  match getField kvs k with
  | some j => Except.ok j
  | none => Except.error PyErr.validationError

/-- A serde `Str` field value. -/
def asStr : J → Except PyErr String
  | J.s v => Except.ok v
  | _ => Except.error PyErr.validationError

/-- A serde `Int` field value (a JSON float is not an int). -/
def asInt : J → Except PyErr Int
  | J.i v => Except.ok v
  | _ => Except.error PyErr.validationError

/-- A numeric value for `trueskill.Rating`, which accepts ints and
floats. -/
def asNum : J → Except PyErr ℚ
  | J.f v => Except.ok v
  | J.i v => Except.ok (v : ℚ)
  | _ => Except.error PyErr.validationError

/-- A serde `Bool`-typed value. -/
def asBool : J → Except PyErr Bool
  | J.b v => Except.ok v
  | _ => Except.error PyErr.validationError

/-- Python `Rating.serialize`: `{'mu': value.mu, 'sigma': value.sigma}`. -/
def Rating.toJ (r : Rating) : J :=
  J.obj [("mu", J.f r.mu), ("sigma", J.f r.sigma)]

/-- Python `Rating.deserialize`: `trueskill.Rating(mu=value['mu'],
sigma=value['sigma'])`. -/
def Rating.ofJ (j : J) : Except PyErr Rating :=
  match j with
  | J.obj kvs => do
    let mu ← asNum (← reqField kvs "mu")
    let sigma ← asNum (← reqField kvs "sigma")
    return { mu := mu, sigma := sigma }
  | _ => Except.error PyErr.validationError

/-- serde serialization of a `Bot` (fields in declaration order). -/
def Bot.toJ (b : Bot) : J :=
  J.obj [("name", J.s b.name), ("command", J.s b.command),
         ("rating", b.rating.toJ), ("played", J.i b.played),
         ("won", J.i b.won)]

/-- serde deserialization of a `Bot`: `name`/`command` required,
`rating`/`played`/`won` fall back to their field defaults when absent. -/
def Bot.ofJ (j : J) : Except PyErr Bot :=
  match j with
  | J.obj kvs => do
    let name ← asStr (← reqField kvs "name")
    let command ← asStr (← reqField kvs "command")
    let rating ←
      match getField kvs "rating" with
      | some rj => Rating.ofJ rj
      | none => Except.ok defaultRating
    let played ←
      match getField kvs "played" with
      | some pj => asInt pj
      | none => Except.ok (0 : Int)
    let won ←
      match getField kvs "won" with
      | some wj => asInt wj
      | none => Except.ok (0 : Int)
    return { name := name, command := command, rating := rating,
             played := played, won := won }
  | _ => Except.error PyErr.validationError

/-- serde serialization of a `Map`; unset optional fields are omitted. -/
def Map.toJ (m : Map) : J :=
  J.obj ([("width", J.i m.width), ("height", J.i m.height)]
    ++ (match m.seed with
        | some s0 => [("seed", J.i s0)]
        | none => [])
    ++ (match m.generator with
        | some g => [("generator", J.s g)]
        | none => []))

/-- serde deserialization of a `Map` (type checks here; the value bounds are
checked by `validate()`). -/
def Map.ofJ (j : J) : Except PyErr Map :=
  match j with
  | J.obj kvs => do
    let width ← asInt (← reqField kvs "width")
    let height ← asInt (← reqField kvs "height")
    let seed ←
      match getField kvs "seed" with
      | some sj => (asInt sj).map some
      | none => Except.ok none
    let generator ←
      match getField kvs "generator" with
      | some gj => (asStr gj).map some
      | none => Except.ok none
    return { width := width, height := height, seed := seed,
             generator := generator }
  | _ => Except.error PyErr.validationError

/-- Serialization of one inner `Dict(str, int)` score dict. -/
def scoreDictToJ (d : List (String × Int)) : J :=
  J.obj (d.map (fun p => (p.1, J.i p.2)))

/-- Deserialization of one inner `Dict(str, int)` score dict. -/
def scoreDictOfJ (j : J) : Except PyErr (List (String × Int)) :=
  match j with
  | J.obj kvs => kvs.mapM (fun p => (asInt p.2).map (fun v => (p.1, v)))
  | _ => Except.error PyErr.validationError

/-- serde serialization of a `Result`. -/
def Result.toJ (r : Result) : J :=
  J.obj [("scores", J.obj (r.scores.map (fun p => (p.1, scoreDictToJ p.2)))),
         ("terminated", J.obj (r.terminated.map (fun p => (p.1, J.b p.2))))]

/-- serde deserialization of a `Result`. -/
def Result.ofJ (j : J) : Except PyErr Result :=
  match j with
  | J.obj kvs => do
    let scores ←
      match ← reqField kvs "scores" with
      | J.obj svs => svs.mapM (fun p => (scoreDictOfJ p.2).map (fun d => (p.1, d)))
      | _ => Except.error PyErr.validationError
    let terminated ←
      match ← reqField kvs "terminated" with
      | J.obj tvs => tvs.mapM (fun p => (asBool p.2).map (fun v => (p.1, v)))
      | _ => Except.error PyErr.validationError
    return { scores := scores, terminated := terminated }
  | _ => Except.error PyErr.validationError

/-- serde serialization of a `Match` (the JSON field is called `match`). -/
def Match.toJ (mt : Match) : J :=
  J.obj [("contestants", J.arr (mt.contestants.map J.s)),
         ("map", mt.map.toJ)]

/-- serde deserialization of a `Match`. -/
def Match.ofJ (j : J) : Except PyErr Match :=
  match j with
  | J.obj kvs => do
    let contestants ←
      match ← reqField kvs "contestants" with
      | J.arr cs => cs.mapM asStr
      | _ => Except.error PyErr.validationError
    let map ← Map.ofJ (← reqField kvs "map")
    return { contestants := contestants, map := map }
  | _ => Except.error PyErr.validationError

/-- serde serialization of a `Game`. -/
def Game.toJ (g : Game) : J :=
  J.obj [("match", g.matchup.toJ), ("result", g.result.toJ)]

/-- serde deserialization of a `Game`. -/
def Game.ofJ (j : J) : Except PyErr Game :=
  match j with
  | J.obj kvs => do
    let mt ← Match.ofJ (← reqField kvs "match")
    let result ← Result.ofJ (← reqField kvs "result")
    return { matchup := mt, result := result }
  | _ => Except.error PyErr.validationError

/-- Python `Manager.to_json`, at the document level. -/
def Manager.toJ (m : Manager) : J :=
  J.obj [("bots", J.obj (m.bots.map (fun p => (p.1, p.2.toJ)))),
         ("games", J.arr (m.games.map Game.toJ))]

/-- Python `Manager.from_json`, at the document level; the `bots` and `games`
fields fall back to their serde defaults when absent. -/
def Manager.ofJ (j : J) : Except PyErr Manager :=
  match j with
  | J.obj kvs => do
    let bots ←
      match getField kvs "bots" with
      | some (J.obj bvs) => bvs.mapM (fun p => (Bot.ofJ p.2).map (fun b => (p.1, b)))
      | some _ => Except.error PyErr.validationError
      | none => Except.ok []
    let games ←
      match getField kvs "games" with
      | some (J.arr gs) => gs.mapM Game.ofJ
      | some _ => Except.error PyErr.validationError
      | none => Except.ok []
    return { bots := bots, games := games }
  | _ => Except.error PyErr.validationError

/-- A rational rendered as JSON number text (exact; stands in for Python
float repr). -/
def qToStr (q : ℚ) : String :=
  toString q

/-- A JSON string literal (serde bot names and commands are plain text in
this model, so escaping is elided). -/
def strLit (s : String) : String :=
  "\"" ++ s ++ "\""

/-- One `"key": value` JSON object member. -/
def jMember (k v : String) : String :=
  strLit k ++ ": " ++ v

/-- A JSON object as text. -/
def objStr (members : List String) : String :=
  "\x7b" ++ String.intercalate ", " members ++ "\x7d"

/-- A JSON array as text. -/
def arrStr (vs : List String) : String :=
  "[" ++ String.intercalate ", " vs ++ "]"

/-- The serialized text of a `Rating`. -/
def Rating.toStr (r : Rating) : String :=
  objStr [jMember "mu" (qToStr r.mu), jMember "sigma" (qToStr r.sigma)]

/-- The serialized text of a `Bot`. -/
def Bot.toStr (b : Bot) : String :=
  objStr [jMember "name" (strLit b.name), jMember "command" (strLit b.command),
          jMember "rating" b.rating.toStr, jMember "played" (toString b.played),
          jMember "won" (toString b.won)]

/-- The serialized text of a `Map`. -/
def Map.toStr (m : Map) : String :=
  objStr ([jMember "width" (toString m.width), jMember "height" (toString m.height)]
    ++ (match m.seed with
        | some s0 => [jMember "seed" (toString s0)]
        | none => [])
    ++ (match m.generator with
        | some g => [jMember "generator" (strLit g)]
        | none => []))

/-- The serialized text of a `Result`. -/
def Result.toStr (r : Result) : String :=
  objStr [jMember "scores" (objStr (r.scores.map (fun p =>
            jMember p.1 (objStr (p.2.map (fun q => jMember q.1 (toString q.2))))))),
          jMember "terminated" (objStr (r.terminated.map (fun p =>
            jMember p.1 (toString p.2))))]

/-- The serialized text of a `Match`. -/
def Match.toStr (mt : Match) : String :=
  objStr [jMember "contestants" (arrStr (mt.contestants.map strLit)),
          jMember "map" mt.map.toStr]

/-- The serialized text of a `Game`. -/
def Game.toStr (g : Game) : String :=
  objStr [jMember "match" g.matchup.toStr, jMember "result" g.result.toStr]

/-- Python `Manager.to_json` as the byte string handed to `f.write`. -/
def Manager.toStr (m : Manager) : String :=
  objStr [jMember "bots" (objStr (m.bots.map (fun p => jMember p.1 p.2.toStr))),
          jMember "games" (arrStr (m.games.map Game.toStr))]

/-- A `Manager` Python object: its serde field data together with its
`_path` instance attribute (`none` when the attribute was never assigned,
in which case reading it raises `AttributeError`). -/
structure ManagerObj where
  data : Manager
  path : Option String
deriving DecidableEq, Repr

/-- Reading `self._path`. -/
def getPath (mo : ManagerObj) : Except PyErr String :=
  match mo.path with
  | some p => Except.ok p
  | none => Except.error PyErr.attributeError

/-- Python `Manager.new(path)`: `manager = cls()`, then the bare statement
`manager._path` — an attribute read with no assignment — then
`return manager`.  The fresh instance has no `_path` attribute, so the read
raises. -/
def Manager.new (_path : String) : Except PyErr ManagerObj :=
  let mo : ManagerObj := { data := Manager.empty, path := none }
  match getPath mo with
  | Except.ok _ => Except.ok mo
  | Except.error e => Except.error e

/-- Python `Manager.read(path)`: open the store file (`OSError` when there is no
file), parse it, and record `_path`.  The file argument is the parsed
document when a file exists. -/
def Manager.read (path : String) (file : Option J) : Except PyErr ManagerObj :=
  match file with
  | none => Except.error PyErr.osError
  | some j =>
    match Manager.ofJ j with
    | Except.ok m => Except.ok { data := m, path := some path }
    | Except.error e => Except.error e

/-- The cli group body: `try: manager = Manager.read(path) except OSError:
manager = Manager.new(path)`. -/
def cliLoad (path : String) (file : Option J) : Except PyErr ManagerObj :=
  match Manager.read path file with
  | Except.error PyErr.osError => Manager.new path
  | other => other

/-- Python `Manager.save`: `self.validate()` first (raising without touching the
file), then read `self._path` (raising if unset), then open the target for
writing — which truncates it — and write the serialization in one call.
The first component is the store file content after the call. -/
def ManagerObj.save (mo : ManagerObj) (file : Option String) :
    Option String × Option PyErr :=
  if mo.data.validB = false then
    (file, some PyErr.validationError)
  else
    match mo.path with
    | none => (file, some PyErr.attributeError)
    | some _ => (some mo.data.toStr, none)

/-- The store file content when the process crashes after `k` characters of
the write have reached the file: `open(self._path, 'w')` has already
truncated the target, so only a prefix of the new serialization remains.
Before validation passes and `_path` is read, the file is untouched. -/
def ManagerObj.saveCrashAt (mo : ManagerObj) (file : Option String) (k : Nat) :
    Option String :=
  if mo.data.validB = true ∧ mo.path.isSome then
    some (mo.data.toStr.take k)
  else
    file

/-! ### Concrete example values used by counterexamples and witnesses -/

/-- A one-bot registry. -/
def exManager1 : Manager :=
  { bots := [("A", { name := "A", command := "./a",
                     rating := { mu := 25, sigma := 8 },
                     played := 0, won := 0 })],
    games := [] }

/-- A three-bot registry. -/
def exManager3 : Manager :=
  { bots := [("A", { name := "A", command := "./a",
                     rating := { mu := 25, sigma := 8 },
                     played := 0, won := 0 }),
             ("B", { name := "B", command := "./b",
                     rating := { mu := 25, sigma := 8 },
                     played := 0, won := 0 }),
             ("C", { name := "C", command := "./c",
                     rating := { mu := 24, sigma := 7 },
                     played := 0, won := 0 })],
    games := [] }

/-- A valid 32x32 map with no seed and no generator. -/
def exMap : Map :=
  { width := 32, height := 32, seed := none, generator := none }

/-- A two-contestant match between A and B on `exMap`. -/
def exMatch : Match :=
  { contestants := ["A", "B"], map := exMap }

/-- A game in which A ranks 1 and B ranks 2. -/
def exGame : Game :=
  { matchup := exMatch,
    result := { scores := [("A", [("rank", 1), ("score", 10)]),
                           ("B", [("rank", 2), ("score", 5)])],
                terminated := [("A", false), ("B", false)] } }

/-- An engine output carrying a single per-contestant entry (index 0). -/
def exShortOutput : EngineOutput :=
  { map_seed := 7, map_generator := "basic",
    stats := [(0, [("rank", 1), ("score", 10)])],
    terminated := [(0, false)] }

/-- An engine output carrying one entry per contestant of `exMatch`
(indices 0 and 1). -/
def exFullOutput : EngineOutput :=
  { map_seed := 7, map_generator := "basic",
    stats := [(0, [("rank", 1), ("score", 10)]),
              (1, [("rank", 2), ("score", 5)])],
    terminated := [(0, false), (1, false)] }

/-! ### Helper lemmas about the dict model -/

theorem lookup_updateDict_self {α : Type} (l : List (String × α)) (k : String)
    (f : α → α) :
    lookupDict (updateDict l k f) k = (lookupDict l k).map f := by
  induction l with
  | nil => rfl
  | cons p l ih =>
    by_cases h : p.1 = k
    · simp [lookupDict, updateDict, h]
    · simp only [updateDict, List.map_cons, if_neg h]
      simp only [lookupDict] at ih ⊢
      rw [List.find?_cons_of_neg, List.find?_cons_of_neg]
      · exact ih
      · simp [h]
      · simp [h]

theorem lookup_updateDict_ne {α : Type} (l : List (String × α)) (k x : String)
    (f : α → α) (hx : x ≠ k) :
    lookupDict (updateDict l k f) x = lookupDict l x := by
  induction l with
  | nil => rfl
  | cons p l ih =>
    by_cases h : p.1 = k
    · simp only [updateDict, List.map_cons, if_pos h]
      simp only [lookupDict] at ih ⊢
      rw [List.find?_cons_of_neg, List.find?_cons_of_neg]
      · exact ih
      · simp only [decide_eq_true_eq]
        rw [h]
        exact fun hh => hx hh.symm
      · simp only [decide_eq_true_eq]
        rw [h]
        exact fun hh => hx hh.symm
    · simp only [updateDict, List.map_cons, if_neg h]
      by_cases h2 : p.1 = x
      · simp [lookupDict, h2]
      · simp only [lookupDict] at ih ⊢
        rw [List.find?_cons_of_neg, List.find?_cons_of_neg]
        · exact ih
        · simp [h2]
        · simp [h2]

theorem keys_updateDict {α : Type} (l : List (String × α)) (k : String)
    (f : α → α) :
    (updateDict l k f).map (fun p => p.1) = l.map (fun p => p.1) := by
  induction l with
  | nil => rfl
  | cons p l ih =>
    by_cases h : p.1 = k <;>
      simp only [updateDict, List.map_cons, if_pos, if_neg, h] <;>
      simp only [updateDict] at ih <;> simp [ih, h]

theorem dictInsert_of_fresh {α : Type} (l : List (String × α)) (k : String)
    (v : α) (h : ∀ p ∈ l, p.1 ≠ k) :
    dictInsert l k v = l ++ [(k, v)] := by
  have : l.any (fun p => decide (p.1 = k)) = false := by
    simp only [List.any_eq_false, decide_eq_true_eq]
    exact h
  simp [dictInsert, this]

/-! ### Helper lemmas about mapM over Except -/

theorem mapM_eq_ok_of_forall {α β : Type} (l : List α) (f : α → Except PyErr β)
    (g1 : α → β) (H : ∀ a ∈ l, f a = Except.ok (g1 a)) :
    l.mapM f = Except.ok (l.map g1) := by
  induction l with
  | nil => rfl
  | cons a l ih =>
    rw [List.mapM_cons]
    rw [H a (List.mem_cons_self a l)]
    rw [ih (fun x hx => H x (List.mem_cons_of_mem a hx))]
    rfl

theorem mapM_map_ok {α β : Type} (l : List α) (g1 : α → β)
    (f : β → Except PyErr α) (H : ∀ a ∈ l, f (g1 a) = Except.ok a) :
    (l.map g1).mapM f = Except.ok l := by
  induction l with
  | nil => rfl
  | cons a l ih =>
    rw [List.map_cons, List.mapM_cons, H a (List.mem_cons_self a l),
        ih (fun x hx => H x (List.mem_cons_of_mem a hx))]
    rfl

/-! ### C2: the Selector never raises; it silently truncates -/

/-- C2 counterexample: a registry with a single bot and a requested count of
2 provokes no error of any kind — `generate_contestants` is a total function
returning a one-element contestant list (the repository defines no
`InsufficientBotsError`). -/
theorem c2_insufficient_bots_counterexample :
    Manager.generate_contestants exManager1 id id 2 [] = ["A"] ∧
    (Manager.generate_contestants exManager1 id id 2 []).length < 2 := by
  constructor <;> decide

/-- C2 amended: the Selector never fails: for every registry, requested
count, and length-preserving shuffle, the no-priority selection silently
returns `min count (registry size)` names — in particular a smaller set than
requested whenever the registry holds fewer bots than `count`. -/
theorem c2_selector_silently_truncates (m : Manager)
    (shuffle1 shuffle2 : List String → List String) (count : Nat)
    (h1 : ∀ l : List String, (shuffle1 l).length = l.length) :
    (m.generate_contestants shuffle1 shuffle2 count []).length =
      min count m.bots.length := by
  simp [Manager.generate_contestants, h1, botNames]

/-- C2 amended, witness: with three bots and a requested count of 5 the
Selector returns all three names. -/
theorem c2_selector_silently_truncates_witness :
    (Manager.generate_contestants exManager3 id id 5 []).length = min 5 3 := by
  have := c2_selector_silently_truncates exManager3 id id 5 (fun _ => rfl)
  simpa [exManager3] using this

/-! ### C3: the priority contract holds -/

/-- C3: if every priority name is in the registry and there are at most
`count` of them, every priority name appears in the Selector's output (the
final shuffle is a permutation, so taking `count` elements of a list of at
most `count` elements keeps them all). -/
theorem c3_priority_names_in_output (m : Manager)
    (shuffle1 shuffle2 : List String → List String) (count : Nat)
    (prioritize : List String)
    (hsub : ∀ p ∈ prioritize, p ∈ botNames m)
    (hle : prioritize.length ≤ count)
    (h2 : ∀ l : List String, (shuffle2 l).Perm l) :
    ∀ p ∈ prioritize, p ∈ m.generate_contestants shuffle1 shuffle2 count prioritize := by
  intro p hp
  unfold Manager.generate_contestants
  have hne : prioritize.isEmpty = false := by
    cases prioritize with
    | nil => cases hp
    | cons a l => rfl
  rw [hne]
  simp only [Bool.false_eq_true, if_false]
  set pool := shuffle1 ((botNames m).filter (fun n => decide (n ∉ prioritize))) with hpool
  set base := prioritize ++ pool.take (count - prioritize.length) with hbase
  have hlen : base.length ≤ count := by
    rw [hbase, List.length_append, List.length_take]
    omega
  have hlen2 : (shuffle2 base).length ≤ count := by
    rw [(h2 base).length_eq]; exact hlen
  rw [List.take_of_length_le hlen2]
  exact (h2 base).mem_iff.mpr (List.mem_append_left _ hp)

/-- C3 witness: with registry \x7bA, B, C\x7d, priority [B], count 2 and
identity shuffles, B is among the selected contestants. -/
theorem c3_priority_names_in_output_witness :
    "B" ∈ Manager.generate_contestants exManager3 id id 2 ["B"] :=
  c3_priority_names_in_output exManager3 id id 2 ["B"] (by decide) (by decide)
    (fun l => List.Perm.refl l) "B" (List.mem_cons_self "B" [])

/-! ### C4: duplicate-freedom and the output-size bounds -/

theorem filter_length_split {α : Type} (l : List α) (p : α → Bool) :
    (l.filter p).length + (l.filter (fun a => !(p a))).length = l.length := by
  induction l with
  | nil => rfl
  | cons a l ih =>
    cases h : p a with
    | true => simp [List.filter_cons, h]; omega
    | false => simp [List.filter_cons, h]; omega

/-- C4 counterexample: with `--count 1` (the cli range allows 1) the output
has fewer than 2 names even on a 3-bot registry; a duplicated priority name
yields duplicate output names; priority names missing from the registry
push the output length above the registry size. -/
theorem c4_selector_invariant_counterexample :
    (Manager.generate_contestants exManager3 id id 1 []).length < 2 ∧
    ¬ (Manager.generate_contestants exManager3 id id 2 ["A", "A"]).Nodup ∧
    exManager1.bots.length <
      (Manager.generate_contestants exManager1 id id 3 ["X", "Y", "Z"]).length := by
  refine ⟨by decide, by decide, by decide⟩

/-- C4 amended: under the registry invariant (distinct bot names) and for
priority lists that are duplicate-free and drawn from the registry, the
Selector output has no duplicate names and its length is exactly
`min count (registry size)`; hence it lies in `[2, registry size]` whenever
`2 ≤ count` and the registry holds at least 2 bots.  (The unrestricted
claim fails: see the counterexample.) -/
theorem c4_selector_nodup_and_size (m : Manager)
    (shuffle1 shuffle2 : List String → List String) (count : Nat)
    (prioritize : List String)
    (hnames : (botNames m).Nodup)
    (hPnd : prioritize.Nodup)
    (hsub : ∀ p ∈ prioritize, p ∈ botNames m)
    (h1 : ∀ l : List String, (shuffle1 l).Perm l)
    (h2 : ∀ l : List String, (shuffle2 l).Perm l) :
    (m.generate_contestants shuffle1 shuffle2 count prioritize).Nodup ∧
    (m.generate_contestants shuffle1 shuffle2 count prioritize).length =
      min count m.bots.length ∧
    (2 ≤ count → 2 ≤ m.bots.length →
      2 ≤ (m.generate_contestants shuffle1 shuffle2 count prioritize).length ∧
      (m.generate_contestants shuffle1 shuffle2 count prioritize).length ≤
        m.bots.length) := by
  have hblen : (botNames m).length = m.bots.length := by
    simp [botNames]
  by_cases hP : prioritize.isEmpty
  · have hPnil : prioritize = [] := List.isEmpty_iff.mp hP
    subst hPnil
    unfold Manager.generate_contestants
    simp only [List.isEmpty_nil, if_pos]
    have hnd : (shuffle1 (botNames m)).Nodup := (h1 _).nodup_iff.mpr hnames
    have hlen : (shuffle1 (botNames m)).length = (botNames m).length :=
      (h1 _).length_eq
    refine ⟨hnd.sublist (List.take_sublist _ _), ?_, ?_⟩
    · rw [List.length_take, hlen, hblen]
    · rw [List.length_take, hlen, hblen]
      omega
  · unfold Manager.generate_contestants
    rw [if_neg (by simpa using hP)]
    have hdeq : (fun n => decide (n ∉ prioritize)) =
        (fun n => !(decide (n ∈ prioritize))) := by
      funext n
      simp
    set filtered := (botNames m).filter (fun n => decide (n ∉ prioritize)) with hf
    set pool := shuffle1 filtered with hpool
    set base := prioritize ++ pool.take (count - prioritize.length) with hbase
    have hfnd : filtered.Nodup := hnames.filter _
    have hpoolnd : pool.Nodup := (h1 _).nodup_iff.mpr hfnd
    have hpoollen : pool.length = filtered.length := (h1 _).length_eq
    -- the bots matching the priority list are a permutation of it
    have hinperm : ((botNames m).filter (fun n => decide (n ∈ prioritize))).Perm
        prioritize := by
      refine (List.perm_ext_iff_of_nodup (hnames.filter _) hPnd).mpr ?_
      intro a
      simp only [List.mem_filter, decide_eq_true_eq]
      exact ⟨fun h => h.2, fun h => ⟨hsub a h, h⟩⟩
    have hinlen : ((botNames m).filter (fun n => decide (n ∈ prioritize))).length =
        prioritize.length := hinperm.length_eq
    have hsplit := filter_length_split (botNames m) (fun n => decide (n ∈ prioritize))
    have hflen : filtered.length = (botNames m).length - prioritize.length := by
      rw [hf, hdeq]
      omega
    have hPle : prioritize.length ≤ (botNames m).length := by
      omega
    -- the concatenation is duplicate-free
    have hdisj : base.Nodup := by
      rw [hbase]
      refine hPnd.append (hpoolnd.sublist (List.take_sublist _ _)) ?_
      intro a ha hb
      have : a ∈ pool := List.mem_of_mem_take hb
      have : a ∈ filtered := (h1 _).mem_iff.mp this
      rw [hf] at this
      have := (List.mem_filter.mp this).2
      simp only [decide_eq_true_eq] at this
      exact this ha
    have hbaselen : base.length =
        prioritize.length + min (count - prioritize.length) filtered.length := by
      rw [hbase, List.length_append, List.length_take, hpoollen]
    have hnd : (shuffle2 base).Nodup := (h2 _).nodup_iff.mpr hdisj
    have hlen : (shuffle2 base).length = base.length := (h2 _).length_eq
    refine ⟨hnd.sublist (List.take_sublist _ _), ?_, ?_⟩
    · rw [List.length_take, hlen, hbaselen, ← hblen]
      omega
    · rw [List.length_take, hlen, hbaselen, ← hblen]
      omega

/-- C4 amended, witness: registry \x7bA, B, C\x7d, priority [A], count 2,
identity shuffles: the output is duplicate-free of length `min 2 3`. -/
theorem c4_selector_nodup_and_size_witness :
    (Manager.generate_contestants exManager3 id id 2 ["A"]).Nodup ∧
    (Manager.generate_contestants exManager3 id id 2 ["A"]).length = min 2 3 := by
  have h := c4_selector_nodup_and_size exManager3 id id 2 ["A"]
    (by decide) (by decide) (by decide)
    (fun l => List.Perm.refl l) (fun l => List.Perm.refl l)
  exact ⟨h.1, h.2.1⟩

/-! ### C1: what `add_game` does to counters and history -/

theorem commitLoop_snd_none (names : List String) :
    ∀ (ranks : List Int) (nrs : List Rating) (bots : List (String × Bot)),
    ranks.length = names.length → nrs.length = names.length →
    (commitLoop bots names ranks nrs).2 = none := by
  induction names with
  | nil => intro ranks nrs bots _ _; rfl
  | cons n ns ih =>
    intro ranks nrs bots h1 h2
    cases ranks with
    | nil => simp at h1
    | cons r rs =>
      cases nrs with
      | nil => simp at h2
      | cons nr nrs2 =>
        simp only [commitLoop]
        exact ih rs nrs2 _ (by simpa using h1) (by simpa using h2)

theorem commitLoop_lookup_of_not_mem (names : List String) :
    ∀ (ranks : List Int) (nrs : List Rating) (bots : List (String × Bot))
      (x : String), x ∉ names →
    lookupDict (commitLoop bots names ranks nrs).1 x = lookupDict bots x := by
  induction names with
  | nil => intro ranks nrs bots x _; rfl
  | cons n ns ih =>
    intro ranks nrs bots x hx
    cases ranks with
    | nil => rfl
    | cons r rs =>
      cases nrs with
      | nil => rfl
      | cons nr nrs2 =>
        simp only [commitLoop]
        rw [ih rs nrs2 _ x (fun h => hx (List.mem_cons_of_mem n h))]
        exact lookup_updateDict_ne _ n x _
          (fun h => hx (h ▸ List.mem_cons_self n ns))

theorem commitLoop_lookup_of_mem (names : List String) :
    ∀ (ranks : List Int) (nrs : List Rating) (bots : List (String × Bot)),
    names.Nodup → nrs.length = names.length →
    ∀ t ∈ names.zip ranks,
      ∃ nr, lookupDict (commitLoop bots names ranks nrs).1 t.1 =
        (lookupDict bots t.1).map (commitStep t.2 nr) := by
  induction names with
  | nil => intro ranks nrs bots _ _ t ht; cases ht
  | cons n ns ih =>
    intro ranks nrs bots hnd hlen t ht
    cases ranks with
    | nil => cases ht
    | cons r rs =>
      cases nrs with
      | nil => simp at hlen
      | cons nr0 nrs2 =>
        simp only [List.zip_cons_cons] at ht
        have hn : n ∉ ns := (List.nodup_cons.mp hnd).1
        rcases List.mem_cons.mp ht with rfl | h
        · refine ⟨nr0, ?_⟩
          simp only [commitLoop]
          rw [commitLoop_lookup_of_not_mem ns rs nrs2 _ n hn]
          exact lookup_updateDict_self _ _ _
        · have hx : t.1 ∈ ns := (List.of_mem_zip h).1
          rcases ih rs nrs2 (updateDict bots n (commitStep r nr0))
            (List.nodup_cons.mp hnd).2 (by simpa using hlen) t h with ⟨nr, hnr⟩
          refine ⟨nr, ?_⟩
          simp only [commitLoop]
          rw [hnr, lookup_updateDict_ne _ n t.1 _ (fun he => hn (he ▸ hx))]

/-- C1: committing a Game through `add_game` (with the opaque trueskill
`rate`, which returns one new rating per rated player) increments `played`
by exactly 1 for every contestant, increments `won` by exactly 1 for
exactly the contestants whose recorded rank equals 1 (and leaves `won`
unchanged for the others, who receive `+ 0`), leaves every bot outside the
game untouched, and appends the Game to the end of the games history. -/
theorem c1_add_game_updates (rate : List Rating → List Int → List Rating)
    (m : Manager) (g : Game)
    (hne : g.result.scores ≠ [])
    (hcon : g.result.scores.map (fun p => p.1) = g.matchup.contestants)
    (hnd : g.matchup.contestants.Nodup)
    (hrank : ∀ p ∈ g.result.scores, (lookupDict p.2 "rank").isSome)
    (hbots : ∀ n ∈ g.matchup.contestants, (lookupDict m.bots n).isSome)
    (hrate : ∀ ps rs, (rate ps rs).length = ps.length) :
    (Manager.add_game rate m g).1.games = m.games ++ [g] ∧
    (∀ p ∈ g.result.scores, ∀ r : Int, ∀ b : Bot,
      lookupDict p.2 "rank" = some r →
      lookupDict m.bots p.1 = some b →
      ∃ b2, lookupDict (Manager.add_game rate m g).1.bots p.1 = some b2 ∧
        b2.played = b.played + 1 ∧
        b2.won = b.won + (if r = 1 then 1 else 0)) ∧
    (∀ x, x ∉ g.matchup.contestants →
      lookupDict (Manager.add_game rate m g).1.bots x = lookupDict m.bots x) := by
  set scores := g.result.scores with hsc
  set names := scores.map (fun p => p.1) with hnm
  set rankD := fun p : String × List (String × Int) =>
    (lookupDict p.2 "rank").getD 0 with hrankD
  set ranksL := scores.map rankD with hrk
  set players := names.map (fun n =>
    ((lookupDict m.bots n).getD (mkBot "" "" none)).rating) with hpl
  set newR := rate players ranksL with hnewR
  have hnamesnd : names.Nodup := by
    rw [hcon]; exact hnd
  have hranksOf : ranksOf scores = Except.ok ranksL := by
    rw [hrk]
    unfold ranksOf
    apply mapM_eq_ok_of_forall
    intro p hp
    rcases Option.isSome_iff_exists.mp (hrank p (hsc ▸ hp)) with ⟨r, hr⟩
    simp [hr, hrankD]
  have hplayersE : names.mapM (fun n =>
      match lookupDict m.bots n with
      | some b => Except.ok b.rating
      | none => Except.error PyErr.keyError) = Except.ok players := by
    rw [hpl]
    apply mapM_eq_ok_of_forall
    intro n hn
    have hn2 : n ∈ g.matchup.contestants := by
      rw [← hcon]
      exact hnm ▸ hn
    rcases Option.isSome_iff_exists.mp (hbots n hn2) with ⟨b, hb⟩
    simp [hb]
  have hisE : scores.isEmpty = false := by
    cases hs : scores with
    | nil => exact absurd hs hne
    | cons a l => rfl
  have hlr : ranksL.length = names.length := by
    rw [hrk, hnm]; simp
  have hlnr : newR.length = names.length := by
    rw [hnewR, hrate, hpl]; simp
  have hfst : (Manager.add_game rate m g).1 =
      { m with
          bots := (commitLoop m.bots names ranksL newR).1
          games := m.games ++ [g] } := by
    simp only [Manager.add_game, ← hsc, hisE, Bool.false_eq_true, if_false,
      hranksOf, ← hnm, hplayersE, ← hnewR,
      commitLoop_snd_none _ _ _ _ hlr hlnr]
  refine ⟨by rw [hfst], ?_, ?_⟩
  · intro p hp r b hr hb
    have hzip : names.zip ranksL = scores.map (fun q => (q.1, rankD q)) := by
      rw [hnm, hrk]
      exact List.zip_map' _ _ _
    have hmem : (p.1, rankD p) ∈ names.zip ranksL := by
      rw [hzip]
      exact List.mem_map_of_mem (fun q => (q.1, rankD q)) (hsc ▸ hp)
    rcases commitLoop_lookup_of_mem names ranksL newR m.bots hnamesnd hlnr
      (p.1, rankD p) hmem with ⟨nr, hnr⟩
    have hrd : rankD p = r := by
      rw [hrankD]
      simp [hr]
    refine ⟨commitStep r nr b, ?_, rfl, rfl⟩
    rw [hfst]
    simp only []
    rw [hnr, hb, hrd]
    rfl
  · intro x hx
    rw [hfst]
    simp only []
    apply commitLoop_lookup_of_not_mem
    rw [hcon]
    exact hx

/-- C1 witness: on the three-bot registry, committing `exGame` (A ranks 1,
B ranks 2) with an identity rating function appends the game to the history
and leaves the uninvolved bot C untouched. -/
theorem c1_add_game_updates_witness :
    (Manager.add_game (fun ps _ => ps) exManager3 exGame).1.games = [exGame] ∧
    lookupDict (Manager.add_game (fun ps _ => ps) exManager3 exGame).1.bots "C" =
      lookupDict exManager3.bots "C" := by
  have h := c1_add_game_updates (fun ps _ => ps) exManager3 exGame
    (by decide) (by decide) (by decide) (by decide) (by decide)
    (fun ps rs => rfl)
  refine ⟨?_, h.2.2 "C" (by decide)⟩
  rw [h.1]
  rfl

/-! ### C5: `won ≤ played` is an invariant of every operation sequence -/

theorem commitStep_preserves_wlp (r : Int) (nr : Rating) (b : Bot)
    (h : b.won ≤ b.played) :
    (commitStep r nr b).won ≤ (commitStep r nr b).played := by
  simp only [commitStep]
  split <;> omega

theorem updateDict_wlp (l : List (String × Bot)) (k : String) (f : Bot → Bot)
    (hf : ∀ b : Bot, b.won ≤ b.played → (f b).won ≤ (f b).played)
    (h : ∀ p ∈ l, p.2.won ≤ p.2.played) :
    ∀ p ∈ updateDict l k f, p.2.won ≤ p.2.played := by
  intro p hp
  rcases List.mem_map.mp hp with ⟨q, hq, rfl⟩
  by_cases hqe : q.1 = k
  · simp only [if_pos hqe]
    exact hf q.2 (h q hq)
  · simp only [if_neg hqe]
    exact h q hq

theorem commitLoop_preserves_wlp (names : List String) :
    ∀ (ranks : List Int) (nrs : List Rating) (bots : List (String × Bot)),
    (∀ p ∈ bots, p.2.won ≤ p.2.played) →
    ∀ p ∈ (commitLoop bots names ranks nrs).1, p.2.won ≤ p.2.played := by
  induction names with
  | nil => intro ranks nrs bots h p hp; exact h p hp
  | cons n ns ih =>
    intro ranks nrs bots h p hp
    cases ranks with
    | nil => exact h p hp
    | cons r rs =>
      cases nrs with
      | nil => exact h p hp
      | cons nr nrs2 =>
        exact ih rs nrs2 _
          (updateDict_wlp bots n _ (commitStep_preserves_wlp r nr) h) p hp

theorem add_game_preserves_wlp (rate : List Rating → List Int → List Rating)
    (m : Manager) (g : Game) (h : WonLePlayed m) :
    WonLePlayed (Manager.add_game rate m g).1 := by
  intro p hp
  simp only [Manager.add_game] at hp
  split at hp
  · exact h p hp
  · split at hp
    · exact h p hp
    · split at hp
      · exact h p hp
      · split at hp
        · exact commitLoop_preserves_wlp _ _ _ _ h p hp
        · exact commitLoop_preserves_wlp _ _ _ _ h p hp

theorem applyOp_preserves_wlp (rate : List Rating → List Int → List Rating)
    (m : Manager) (op : Op) (h : WonLePlayed m) :
    WonLePlayed (applyOp rate m op) := by
  cases op with
  | addBot n c r =>
    intro p hp
    simp only [applyOp, Manager.add_bot] at hp
    split at hp
    · exact h p hp
    · rcases List.mem_append.mp hp with h1 | h1
      · exact h p h1
      · rcases List.mem_singleton.mp h1 with rfl
        simp [mkBot]
  | addGame g => exact add_game_preserves_wlp rate m g h
  | resetAll =>
    intro p hp
    simp only [applyOp] at hp
    rcases List.mem_map.mp hp with ⟨q, _, rfl⟩
    simp [Bot.reset]
  | resetBot n =>
    intro p hp
    simp only [applyOp, Manager.resetBot] at hp
    split at hp
    · exact h p hp
    · exact updateDict_wlp m.bots n Bot.reset (fun b _ => by simp [Bot.reset]) h p hp
  | rmBot n =>
    intro p hp
    simp only [applyOp, Manager.rmBot] at hp
    split at hp
    · exact h p (List.mem_of_mem_filter hp)
    · exact h p hp
  | rmAll =>
    intro p hp
    simp only [applyOp, Manager.rmAll] at hp
    cases hp

theorem foldl_preserves_wlp (rate : List Rating → List Int → List Rating)
    (ops : List Op) :
    ∀ m : Manager, WonLePlayed m → WonLePlayed (ops.foldl (applyOp rate) m) := by
  induction ops with
  | nil => intro m h; exact h
  | cons op ops ih =>
    intro m h
    exact ih (applyOp rate m op) (applyOp_preserves_wlp rate m op h)

/-- C5: every bot is created with `won = 0` and `played = 0`, and after any
sequence of Ledger operations (bot additions, game commits, resets,
removals) issued from the freshly created empty Manager — with an arbitrary
external rating function — every bot in the registry satisfies
`won ≤ played`. -/
theorem c5_won_le_played :
    (∀ (n c : String) (r : Option Rating),
      (mkBot n c r).won = 0 ∧ (mkBot n c r).played = 0) ∧
    ∀ (rate : List Rating → List Int → List Rating) (ops : List Op),
      WonLePlayed (runOps rate ops) := by
  refine ⟨fun n c r => ⟨rfl, rfl⟩, fun rate ops => ?_⟩
  exact foldl_preserves_wlp rate ops Manager.empty (fun p hp => by cases hp)

/-- C5 witness: the invariant instantiated on a concrete one-operation
history: the bot added by the cli satisfies `won ≤ played`. -/
theorem c5_won_le_played_witness :
    (mkBot "A" "./a" none).won ≤ (mkBot "A" "./a" none).played :=
  c5_won_le_played.2 (fun ps _ => ps) [Op.addBot "A" "./a" none]
    ("A", mkBot "A" "./a" none)
    (by
      show ("A", mkBot "A" "./a" none) ∈ [("A", mkBot "A" "./a" none)]
      exact List.mem_singleton.mpr rfl)

/-! ### C9: what `Match.run` does on count mismatch -/

theorem pyIndex_ofNat {α : Type} (l : List α) (i : Nat) (h : i < l.length) :
    pyIndex l (Int.ofNat i) = Except.ok (l.get ⟨i, h⟩) := by
  have h0 : (0 : Int) ≤ Int.ofNat i := by
    rw [Int.ofNat_eq_natCast]
    exact Int.natCast_nonneg i
  simp only [pyIndex]
  rw [if_neg (by omega : ¬ ((Int.ofNat i) < 0))]
  rw [if_pos h0]
  rw [show (Int.ofNat i).toNat = i from rfl]
  rw [List.get?_eq_get h]

theorem get_not_mem_take {α : Type} (c : List α) (i : Nat) (hi : i < c.length)
    (hnd : c.Nodup) : c.get ⟨i, hi⟩ ∉ c.take i := by
  intro hmem
  rcases List.mem_iff_get.mp hmem with ⟨⟨j, hj⟩, hget⟩
  have hj2 : j < min i c.length := by
    simp only [List.length_take] at hj
    exact hj
  have hjlen : j < c.length := by omega
  have hgt : (c.take i).get ⟨j, hj⟩ = c.get ⟨j, hjlen⟩ := by
    simp [List.get_eq_getElem, List.getElem_take]
  rw [hgt] at hget
  have : (⟨j, hjlen⟩ : Fin c.length) = ⟨i, hi⟩ := (hnd.get_inj_iff).mp hget
  have : j = i := congrArg Fin.val this
  omega

theorem buildNamed_range {α : Type} :
    ∀ (entries : List (Int × α)) (c : List String) (i : Nat)
      (acc : List (String × α)),
    c.Nodup →
    entries.map (fun p => p.1) = (List.range' i entries.length).map Int.ofNat →
    i + entries.length = c.length →
    acc.map (fun p => p.1) = c.take i →
    ∃ r, buildNamed c entries acc = Except.ok r ∧
      r.map (fun p => p.1) = c := by
  intro entries
  induction entries with
  | nil =>
    intro c i acc _ _ hlen hacc
    refine ⟨acc, rfl, ?_⟩
    rw [hacc]
    have hi : i = c.length := by simpa using hlen
    rw [hi, List.take_length]
  | cons e rest ih =>
    intro c i acc hnd hkeys hlen hacc
    rw [List.map_cons, List.length_cons, List.range'_succ, List.map_cons] at hkeys
    have hk1 : e.1 = Int.ofNat i := (List.cons.injEq _ _ _ _ ▸ hkeys).1
    have hk2 : rest.map (fun p => p.1) =
        (List.range' (i + 1) rest.length).map Int.ofNat :=
      (List.cons.injEq _ _ _ _ ▸ hkeys).2
    have hlen2 : i + 1 + rest.length = c.length := by
      simp only [List.length_cons] at hlen
      omega
    have hi : i < c.length := by omega
    have hpy : pyIndex c e.1 = Except.ok (c.get ⟨i, hi⟩) := by
      rw [hk1]
      exact pyIndex_ofNat c i hi
    have hfresh : ∀ p ∈ acc, p.1 ≠ c.get ⟨i, hi⟩ := by
      intro p hp hcontra
      have hmem1 : p.1 ∈ acc.map (fun p => p.1) :=
        List.mem_map_of_mem (fun p => p.1) hp
      rw [hacc, hcontra] at hmem1
      exact get_not_mem_take c i hi hnd hmem1
    have hins : dictInsert acc (c.get ⟨i, hi⟩) e.2 =
        acc ++ [(c.get ⟨i, hi⟩, e.2)] :=
      dictInsert_of_fresh acc _ e.2 hfresh
    have hacc2 : (acc ++ [(c.get ⟨i, hi⟩, e.2)]).map (fun p => p.1) =
        c.take (i + 1) := by
      rw [List.map_append, hacc]
      have := List.take_concat_get c i hi
      rw [List.concat_eq_append] at this
      simp only [List.map_cons, List.map_nil]
      exact this
    rcases ih c (i + 1) (acc ++ [(c.get ⟨i, hi⟩, e.2)]) hnd hk2 hlen2 hacc2
      with ⟨r, hr1, hr2⟩
    refine ⟨r, ?_, hr2⟩
    simp only [buildNamed, hpy]
    rw [hins]
    exact hr1

/-- C9 counterexample: the engine returns only one per-contestant entry for
a two-contestant match; `Match.run` raises nothing (the repository defines
no `ProtocolError`) and silently produces a Result whose key set {A}
is a proper subset of the contestant set {A, B}. -/
theorem c9_count_mismatch_counterexample :
    Match.run exMatch exShortOutput =
      Except.ok
        { matchup := { contestants := ["A", "B"],
                       map := { width := 32, height := 32,
                                seed := some 7, generator := some "basic" } },
          result := { scores := [("A", [("rank", 1), ("score", 10)])],
                      terminated := [("A", false)] } } ∧
    ["A"] ≠ exMatch.contestants := by
  constructor
  · rfl
  · decide

/-- C9 amended: `Match.run` performs no count validation and can succeed on
a mismatch (see the counterexample); when the engine output carries exactly
one entry per contestant index `0 .. n-1` — the non-mismatch case — the key
lists of the produced Result (`scores` and `terminated`) are exactly the
Match's contestant list. -/
theorem c9_result_keys_equal_contestants (mt : Match) (out : EngineOutput)
    (hnd : mt.contestants.Nodup)
    (hs : out.stats.map (fun p => p.1) =
      (List.range mt.contestants.length).map Int.ofNat)
    (ht : out.terminated.map (fun p => p.1) =
      (List.range mt.contestants.length).map Int.ofNat) :
    ∃ g, Match.run mt out = Except.ok g ∧
      g.result.scores.map (fun p => p.1) = mt.contestants ∧
      g.result.terminated.map (fun p => p.1) = mt.contestants ∧
      g.matchup.contestants = mt.contestants := by
  have hsl : out.stats.length = mt.contestants.length := by
    have := congrArg List.length hs
    simpa using this
  have htl : out.terminated.length = mt.contestants.length := by
    have := congrArg List.length ht
    simpa using this
  have hs2 : out.stats.map (fun p => p.1) =
      (List.range' 0 out.stats.length).map Int.ofNat := by
    rw [hs, hsl, List.range_eq_range']
  have ht2 : out.terminated.map (fun p => p.1) =
      (List.range' 0 out.terminated.length).map Int.ofNat := by
    rw [ht, htl, List.range_eq_range']
  rcases buildNamed_range out.stats mt.contestants 0 [] hnd hs2 (by omega)
    (by simp) with ⟨r1, hr1, hk1⟩
  rcases buildNamed_range out.terminated mt.contestants 0 [] hnd ht2 (by omega)
    (by simp) with ⟨r2, hr2, hk2⟩
  have hrun : Match.run mt out = Except.ok
      { matchup := { contestants := mt.contestants,
                     map := { width := mt.map.width, height := mt.map.height,
                              seed := some out.map_seed,
                              generator := some out.map_generator } },
        result := { scores := r1, terminated := r2 } } := by
    simp only [Match.run, hr1, hr2]
  exact ⟨_, hrun, hk1, hk2, rfl⟩

/-- C9 amended, witness: on the two-contestant match with a complete engine
output, the Result is keyed exactly by the contestants A, B. -/
theorem c9_result_keys_equal_contestants_witness :
    (Match.run exMatch exFullOutput).map
      (fun g => g.result.scores.map (fun p => p.1)) =
      Except.ok exMatch.contestants := by
  rcases c9_result_keys_equal_contestants exMatch exFullOutput
    (by decide) (by decide) (by decide) with ⟨g, hg, hk, _, _⟩
  rw [hg]
  simp [Except.map, hk]

/-! ### C10: serialization round trip -/

theorem rating_ofJ_toJ (r : Rating) : Rating.ofJ (Rating.toJ r) = Except.ok r :=
  rfl

theorem bot_ofJ_toJ (b : Bot) : Bot.ofJ (Bot.toJ b) = Except.ok b :=
  rfl

theorem map_ofJ_toJ (m : Map) : Map.ofJ (Map.toJ m) = Except.ok m := by
  rcases m with ⟨w, h, s, g⟩
  cases s <;> cases g <;> rfl

theorem scoreDict_ofJ_toJ (d : List (String × Int)) :
    scoreDictOfJ (scoreDictToJ d) = Except.ok d := by
  show (d.map (fun p => (p.1, J.i p.2))).mapM
      (fun p => (asInt p.2).map (fun v => (p.1, v))) = Except.ok d
  exact mapM_map_ok d _ _ (fun a _ => rfl)

theorem result_ofJ_toJ (r : Result) : Result.ofJ (Result.toJ r) = Except.ok r := by
  have hs : (r.scores.map (fun p => (p.1, scoreDictToJ p.2))).mapM
      (fun p => (scoreDictOfJ p.2).map (fun d => (p.1, d))) = Except.ok r.scores :=
    mapM_map_ok _ _ _ (fun a _ => by rw [scoreDict_ofJ_toJ]; rfl)
  have ht : (r.terminated.map (fun p => (p.1, J.b p.2))).mapM
      (fun p => (asBool p.2).map (fun v => (p.1, v))) = Except.ok r.terminated :=
    mapM_map_ok _ _ _ (fun a _ => rfl)
  show ((r.scores.map (fun p => (p.1, scoreDictToJ p.2))).mapM
      (fun p => (scoreDictOfJ p.2).map (fun d => (p.1, d))) >>= fun scores =>
      (r.terminated.map (fun p => (p.1, J.b p.2))).mapM
        (fun p => (asBool p.2).map (fun v => (p.1, v))) >>= fun terminated =>
      Except.ok { scores := scores, terminated := terminated }) = Except.ok r
  rw [hs, ht]
  rfl

theorem match_ofJ_toJ (mt : Match) : Match.ofJ (Match.toJ mt) = Except.ok mt := by
  have hc : (mt.contestants.map J.s).mapM asStr = Except.ok mt.contestants :=
    mapM_map_ok _ _ _ (fun a _ => rfl)
  show ((mt.contestants.map J.s).mapM asStr >>= fun contestants =>
      Map.ofJ (Map.toJ mt.map) >>= fun mp =>
      Except.ok { contestants := contestants, map := mp }) = Except.ok mt
  rw [hc, map_ofJ_toJ]
  rfl

theorem game_ofJ_toJ (g : Game) : Game.ofJ (Game.toJ g) = Except.ok g := by
  show (Match.ofJ (Match.toJ g.matchup) >>= fun mt =>
      Result.ofJ (Result.toJ g.result) >>= fun result =>
      Except.ok { matchup := mt, result := result }) = Except.ok g
  rw [match_ofJ_toJ, result_ofJ_toJ]
  rfl

theorem manager_ofJ_toJ (m : Manager) :
    Manager.ofJ (Manager.toJ m) = Except.ok m := by
  have hb : (m.bots.map (fun p => (p.1, p.2.toJ))).mapM
      (fun p => (Bot.ofJ p.2).map (fun b => (p.1, b))) = Except.ok m.bots :=
    mapM_map_ok _ _ _ (fun a _ => rfl)
  have hg : (m.games.map Game.toJ).mapM Game.ofJ = Except.ok m.games :=
    mapM_map_ok _ _ _ (fun a _ => game_ofJ_toJ a)
  show ((m.bots.map (fun p => (p.1, p.2.toJ))).mapM
      (fun p => (Bot.ofJ p.2).map (fun b => (p.1, b))) >>= fun bots =>
      (m.games.map Game.toJ).mapM Game.ofJ >>= fun games =>
      Except.ok { bots := bots, games := games }) = Except.ok m
  rw [hb, hg]
  rfl

/-- C10: deserializing a saved Ledger document recovers exactly the Ledger
that was saved, so loading a saved Ledger and immediately saving it again
reproduces the saved document — the load/save round trip is the identity on
saved stores (including the Rating mu/sigma object encoding), with no
drift. -/
theorem c10_save_load_roundtrip (m : Manager) :
    Manager.ofJ (Manager.toJ m) = Except.ok m ∧
    (Manager.ofJ (Manager.toJ m)).map Manager.toJ =
      Except.ok (Manager.toJ m) := by
  refine ⟨manager_ofJ_toJ m, ?_⟩
  rw [manager_ofJ_toJ m]
  rfl

/-! ### C6: save validates first but writes in place -/

theorem objStr_two_le_length (ms : List String) : 2 ≤ (objStr ms).length := by
  unfold objStr
  rw [String.length_append, String.length_append]
  have h1 : ("\x7b" : String).length = 1 := rfl
  have h2 : ("\x7d" : String).length = 1 := rfl
  omega

theorem manager_toStr_ne_empty (m : Manager) : Manager.toStr m ≠ "" := by
  intro h
  have h2 : 2 ≤ (Manager.toStr m).length := objStr_two_le_length _
  rw [h] at h2
  simp at h2

/-- C6 counterexample: saving a valid Ledger over an existing store file and
crashing right after the file was opened for writing (0 characters written)
leaves the store holding the empty string — which differs from the old
content, so the old file does not stay intact and the store is corrupted.
No temporary file or atomic replacement exists in the code. -/
theorem c6_crash_corrupts_store_counterexample :
    ManagerObj.saveCrashAt { data := Manager.empty, path := some "manager.json" }
      (some (Manager.toStr exManager1)) 0 = some "" ∧
    Manager.toStr exManager1 ≠ "" := by
  refine ⟨?_, manager_toStr_ne_empty exManager1⟩
  rfl

/-- C6 amended: `save` does validate the model (serde field validation)
before writing and leaves the file untouched when validation fails, but it
writes the serialization directly to the target path — no temporary
location, no atomic replace — so a crash after `k` characters leaves the
target holding just the `k`-character prefix of the new serialization (the
old content is already lost to truncation), and a serialized ledger is
never the empty string. -/
theorem c6_save_validates_then_writes_in_place (mo : ManagerObj)
    (file : Option String) (k : Nat) (p : String) :
    (mo.data.validB = false →
      ManagerObj.save mo file = (file, some PyErr.validationError) ∧
      ManagerObj.saveCrashAt mo file k = file) ∧
    (mo.data.validB = true → mo.path = some p →
      ManagerObj.save mo file = (some mo.data.toStr, none) ∧
      ManagerObj.saveCrashAt mo file k = some (mo.data.toStr.take k) ∧
      mo.data.toStr ≠ "") := by
  constructor
  · intro hv
    unfold ManagerObj.save ManagerObj.saveCrashAt
    rw [hv]
    simp
  · intro hv hp
    unfold ManagerObj.save ManagerObj.saveCrashAt
    rw [hv, hp]
    simp [manager_toStr_ne_empty]

/-- C6 amended, witness: saving the one-bot Ledger writes its serialization;
crashing after 3 characters leaves the 3-character prefix. -/
theorem c6_save_validates_then_writes_in_place_witness :
    ManagerObj.save { data := exManager1, path := some "manager.json" } none =
      (some (Manager.toStr exManager1), none) ∧
    ManagerObj.saveCrashAt { data := exManager1, path := some "manager.json" }
      none 3 = some ((Manager.toStr exManager1).take 3) := by
  have h := (c6_save_validates_then_writes_in_place
    { data := exManager1, path := some "manager.json" } none 3 "manager.json").2
    rfl rfl
  exact ⟨h.1, h.2.1⟩

/-! ### C7: loading when no store file exists -/

/-- C7: when no file exists at the path, the cli catches the `OSError` from
`Manager.read` and calls `Manager.new` — which itself raises
`AttributeError` on the bare attribute read `manager._path`, so no empty
Ledger is ever returned and the cli crashes; when a valid file exists, the
stored Ledger is returned with its path recorded. -/
theorem c7_load_missing_file_crashes :
    cliLoad "manager.json" none = Except.error PyErr.attributeError ∧
    Manager.read "manager.json" (some (Manager.toJ exManager1)) =
      Except.ok { data := exManager1, path := some "manager.json" } := by
  refine ⟨rfl, ?_⟩
  simp [Manager.read, manager_ofJ_toJ exManager1]

/-! ### C8: `Manager.new` and the unassigned `_path` attribute -/

/-- C8 counterexample: `Manager.new` never returns a Manager at all — the
bare statement `manager._path` reads an attribute that was never assigned,
so the `AttributeError` is raised inside `Manager.new` itself, not later in
`save()`. -/
theorem c8_new_raises_counterexample :
    Manager.new "manager.json" = Except.error PyErr.attributeError :=
  rfl

/-- C8 amended: `Manager.new(path)` itself raises `AttributeError` while
evaluating the bare expression statement `manager._path` (the fresh
instance has no `_path` attribute), so no Manager is ever created when the
store file is absent — a ledger for an absent store can never even exist,
let alone be persisted; and `save()` reads `self._path` (assigned only by
`Manager.read`), so any manager object without the attribute raises
`AttributeError` from `save` as well once validation has passed. -/
theorem c8_new_never_persists (path : String) :
    Manager.new path = Except.error PyErr.attributeError ∧
    (∀ (mo : ManagerObj) (file : Option String),
      mo.path = none → mo.data.validB = true →
      ManagerObj.save mo file = (file, some PyErr.attributeError)) := by
  refine ⟨rfl, ?_⟩
  intro mo file hp hv
  unfold ManagerObj.save
  rw [hv, hp]
  simp

/-- C8 amended, witness. -/
theorem c8_new_never_persists_witness :
    Manager.new "m.json" = Except.error PyErr.attributeError ∧
    ManagerObj.save { data := Manager.empty, path := none } none =
      (none, some PyErr.attributeError) :=
  ⟨(c8_new_never_persists "m.json").1,
   (c8_new_never_persists "m.json").2
     { data := Manager.empty, path := none } none rfl rfl⟩

end HaliteManager
